import Mathlib

/-!
Verification of the session-resolution and HTTP-translation layer of the
nestjs-auth repository, as a shallow embedding in Lean.

The embedding covers:
* a small model of JavaScript runtime values and objects (property lists
  carrying an accessor flag, mirroring property descriptors);
* the session projection class `AuthSession` (src/auth.session.ts);
* the guard protocol of `MixinAuthGuard` (`getSession`,
  `getSessionOrError`, `handleRequest`, `handlePublicRoute`,
  `handleProtectedRoute`, `canActivate`);
* the inbound/outbound HTTP translators of src/utils/http-adapters.ts
  (`toWebRequest` header filtering and body encoding, `toHttpResponse`
  set-cookie grouping), in both their buffering and streaming variants.
-/

/-! ## JavaScript value model

A JavaScript value is modelled as `undefined`, `null`, a boolean, an
integer number, a string, or an object.  An object is a list of own
properties in insertion order; each property is a key together with a
flag (`true` when the property was defined through an accessor
descriptor, `false` for a plain data property) and the value the
property yields when read (for an accessor, the value its getter
returns).  Symbol keys, prototypes and integer-key reordering are not
modelled; the code under verification only manipulates plain
string-keyed records. -/

inductive JsValue where
  | vundefined : JsValue
  | vnull : JsValue
  | vbool (b : Bool) : JsValue
  | vnum (n : Int) : JsValue
  | vstr (s : String) : JsValue
  | vobj (props : List (String × Bool × JsValue)) : JsValue

/-- Own-property list of a JavaScript object: key, accessor flag, value. -/
abbrev JsObj := List (String × Bool × JsValue)

/-- JavaScript truthiness of a value. -/
def truthy : JsValue → Bool
  | .vundefined => false
  | .vnull => false
  | .vbool b => b
  | .vnum n => n != 0
  | .vstr s => s ≠ ""
  | .vobj _ => true

/-- Source helper `toRecord` (src/auth.session.ts): a value is a record
exactly when it is a non-null object. -/
def toRecord : JsValue → Option JsObj
  | .vobj o => some o
  | _ => none

/-- Look up the own property stored under key `k` (accessor flag and value). -/
def getOwnEntry : JsObj → String → Option (Bool × JsValue)
  | [], _ => none
  | (k', p) :: rest, k => if k' = k then some p else getOwnEntry rest k

/-- JavaScript property read `o[k]`: the stored value, or `undefined`
when the property is absent. -/
def getValue (o : JsObj) (k : String) : JsValue :=
  match getOwnEntry o k with
  | some (_, v) => v
  | none => .vundefined

/-- JavaScript own-property presence test (`'k' in o` for the plain
records manipulated here). -/
def hasOwn (o : JsObj) (k : String) : Bool :=
  (getOwnEntry o k).isSome

/-- JavaScript `Object.defineProperty` / property assignment: replace the
property in place when the key exists, otherwise append it. -/
def defineProp : JsObj → String → Bool × JsValue → JsObj
  | [], k, p => [(k, p)]
  | (k', p') :: rest, k, p =>
      if k' = k then (k, p) :: rest else (k', p') :: defineProp rest k p

/-- Source helper `copyExtraProps` (src/auth.session.ts): walk the source
object's own property descriptors in order and `defineProperty` each
non-excluded one onto the target, preserving the descriptor (here: the
accessor flag and the value) verbatim. -/
def copyExtraProps (source : JsObj) (target : JsObj) (exclude : List String) : JsObj :=
  source.foldl
    (fun tgt kp => if kp.1 ∈ exclude then tgt else defineProp tgt kp.1 kp.2)
    target

/-! ## Session projection (src/auth.session.ts) -/

/-- Base-field block of the `AuthSession` constructor: copy `name`,
`email`, `image` from the source user in that order, each only when
present (`'name' in srcUser`), as plain data properties holding the
value read from the source. -/
def baseFields (u : JsObj) : JsObj :=
  let m0 : JsObj := []
  let m1 := if hasOwn u "name" then defineProp m0 "name" (false, getValue u "name") else m0
  let m2 := if hasOwn u "email" then defineProp m1 "email" (false, getValue u "email") else m1
  if hasOwn u "image" then defineProp m2 "image" (false, getValue u "image") else m2

/-- Merged user built by the `AuthSession` constructor: the base fields
followed by a descriptor copy of every other own property of the source
user. -/
def mergeUser (u : JsObj) : JsObj :=
  copyExtraProps u (baseFields u) ["name", "email", "image"]

/-- Expires block of the `AuthSession` constructor: set `expires` only
when the source session has an `expires` property whose value is a
string. -/
def applyExpires (r : JsObj) (w : JsObj) : JsObj :=
  if hasOwn r "expires" then
    match getValue r "expires" with
    | .vstr s => defineProp w "expires" (false, .vstr s)
    | _ => w
  else w

/-- Constructor body of `AuthSession`: build the merged user from the
three base fields plus descriptor-copied extras (or set `user` to `null`
when the source user is not a record), set `expires` when the source
carries a string `expires`, then descriptor-copy all remaining top-level
properties of the source session. -/
def AuthSession.construct (src : JsValue) : JsObj :=
  let srcAsRec := toRecord src
  let srcUserVal :=
    match srcAsRec with
    | some r => getValue r "user"
    | none => JsValue.vundefined
  let withUser : JsObj :=
    match toRecord srcUserVal with
    | some u => defineProp [] "user" (false, JsValue.vobj (mergeUser u))
    | none => defineProp [] "user" (false, JsValue.vnull)
  let withExpires : JsObj :=
    match srcAsRec with
    | some r => applyExpires r withUser
    | none => withUser
  match srcAsRec with
  | some r => copyExtraProps r withExpires ["user", "expires"]
  | none => withExpires

/-- Static factory `AuthSession.fromCore`: `core ? new AuthSession(core) : null`. -/
def AuthSession.fromCore (core : JsValue) : Option JsObj :=
  if truthy core then some (AuthSession.construct core) else none

/-- Method `AuthSession.toJSON`: emit `user` and `expires` when defined,
then descriptor-copy the remaining own properties. -/
def AuthSession.toJSON (self : JsObj) : JsObj :=
  let o0 : JsObj := []
  let o1 :=
    match getValue self "user" with
    | .vundefined => o0
    | v => defineProp o0 "user" (false, v)
  let o2 :=
    match getValue self "expires" with
    | .vundefined => o1
    | v => defineProp o1 "expires" (false, v)
  copyExtraProps self o2 ["user", "expires"]

/-! ### Association-list lemmas for the object model -/

theorem getOwnEntry_defineProp_self (o : JsObj) (k : String) (p : Bool × JsValue) :
    getOwnEntry (defineProp o k p) k = some p := by
  induction o with
  | nil => simp [defineProp, getOwnEntry]
  | cons hd tl ih =>
      cases hd with
      | mk k0 p0 =>
          by_cases h : k0 = k
          · simp [defineProp, getOwnEntry, h]
          · simp [defineProp, getOwnEntry, h, ih]

theorem getOwnEntry_defineProp_ne (o : JsObj) (k : String) (p : Bool × JsValue)
    (k' : String) (h : k' ≠ k) :
    getOwnEntry (defineProp o k p) k' = getOwnEntry o k' := by
  have hne : ¬(k = k') := fun hh => h hh.symm
  induction o with
  | nil => simp [defineProp, getOwnEntry, hne]
  | cons hd tl ih =>
      cases hd with
      | mk k0 p0 =>
          by_cases h0 : k0 = k
          · subst h0
            simp [defineProp, getOwnEntry, hne]
          · simp [defineProp, getOwnEntry, h0, ih]

theorem getOwnEntry_eq_none_of_not_mem (o : JsObj) (k : String)
    (h : k ∉ o.map (fun kp => kp.1)) : getOwnEntry o k = none := by
  induction o with
  | nil => rfl
  | cons hd tl ih =>
      simp only [List.map_cons, List.mem_cons] at h
      push_neg at h
      cases hd with
      | mk k0 p0 =>
          have h1 : ¬(k0 = k) := fun hh => h.1 hh.symm
          simp [getOwnEntry, h1, ih h.2]

theorem copyExtraProps_excluded (src : JsObj) (tgt : JsObj) (excl : List String)
    (k : String) (h : k ∈ excl) :
    getOwnEntry (copyExtraProps src tgt excl) k = getOwnEntry tgt k := by
  induction src generalizing tgt with
  | nil => rfl
  | cons hd tl ih =>
      by_cases h0 : hd.1 ∈ excl
      · simp only [copyExtraProps, List.foldl_cons, if_pos h0]
        exact ih tgt
      · simp only [copyExtraProps, List.foldl_cons, if_neg h0]
        have := ih (defineProp tgt hd.1 hd.2)
        simp only [copyExtraProps] at this
        rw [this]
        exact getOwnEntry_defineProp_ne tgt hd.1 hd.2 k (fun hh => h0 (hh ▸ h))

theorem copyExtraProps_not_in_src (src : JsObj) (tgt : JsObj) (excl : List String)
    (k : String) (h : getOwnEntry src k = none) :
    getOwnEntry (copyExtraProps src tgt excl) k = getOwnEntry tgt k := by
  induction src generalizing tgt with
  | nil => rfl
  | cons hd tl ih =>
      cases hd with
      | mk k0 p0 =>
          simp only [getOwnEntry] at h
          by_cases h0 : k0 = k
          · simp [h0] at h
          · simp only [if_neg h0] at h
            by_cases h1 : k0 ∈ excl
            · simp only [copyExtraProps, List.foldl_cons, if_pos h1]
              exact ih tgt h
            · simp only [copyExtraProps, List.foldl_cons, if_neg h1]
              have := ih (defineProp tgt k0 (p0.1, p0.2)) h
              simp only [copyExtraProps] at this
              rw [this]
              exact getOwnEntry_defineProp_ne tgt k0 _ k (fun hh => h0 hh.symm)

theorem copyExtraProps_from_src (src : JsObj) (tgt : JsObj) (excl : List String)
    (k : String) (p : Bool × JsValue)
    (hk : k ∉ excl) (hnd : (src.map (fun kp => kp.1)).Nodup)
    (h : getOwnEntry src k = some p) :
    getOwnEntry (copyExtraProps src tgt excl) k = some p := by
  induction src generalizing tgt with
  | nil => simp [getOwnEntry] at h
  | cons hd tl ih =>
      cases hd with
      | mk k0 p0 =>
          simp only [List.map_cons, List.nodup_cons] at hnd
          simp only [getOwnEntry] at h
          by_cases h0 : k0 = k
          · rw [if_pos h0] at h
            have hk0 : ¬(k0 ∈ excl) := fun hm => hk (h0 ▸ hm)
            simp only [copyExtraProps, List.foldl_cons, if_neg hk0]
            have hnone : getOwnEntry tl k = none :=
              getOwnEntry_eq_none_of_not_mem tl k (by
                intro hm
                exact (h0 ▸ hnd.1) (by simpa using hm))
            have hcp := copyExtraProps_not_in_src tl (defineProp tgt k0 (p0.1, p0.2)) excl k hnone
            simp only [copyExtraProps] at hcp
            rw [hcp, h0, getOwnEntry_defineProp_self]
            exact h
          · rw [if_neg h0] at h
            by_cases h1 : k0 ∈ excl
            · simp only [copyExtraProps, List.foldl_cons, if_pos h1]
              exact ih tgt hnd.2 h
            · simp only [copyExtraProps, List.foldl_cons, if_neg h1]
              exact ih (defineProp tgt k0 (p0.1, p0.2)) hnd.2 h

theorem getOwnEntry_applyExpires (r w : JsObj) (k : String) (hk : k ≠ "expires") :
    getOwnEntry (applyExpires r w) k = getOwnEntry w k := by
  unfold applyExpires
  by_cases h : hasOwn r "expires"
  · rw [if_pos h]
    cases getValue r "expires" with
    | vstr s => exact getOwnEntry_defineProp_ne w "expires" _ k hk
    | vundefined => rfl
    | vnull => rfl
    | vbool b => rfl
    | vnum n => rfl
    | vobj o => rfl
  · rw [if_neg h]

theorem getOwnEntry_baseFields_other (u : JsObj) (k : String)
    (h1 : k ≠ "name") (h2 : k ≠ "email") (h3 : k ≠ "image") :
    getOwnEntry (baseFields u) k = none := by
  have h1' : ¬("name" = k) := fun hh => h1 hh.symm
  have h2' : ¬("email" = k) := fun hh => h2 hh.symm
  have h3' : ¬("image" = k) := fun hh => h3 hh.symm
  unfold baseFields
  by_cases ha : hasOwn u "name" <;> by_cases hb : hasOwn u "email" <;>
    by_cases hc : hasOwn u "image" <;>
      simp [ha, hb, hc, getOwnEntry_defineProp_ne, h1', h2', h3', getOwnEntry]

theorem getOwnEntry_baseFields_name (u : JsObj) (h : hasOwn u "name" = true) :
    getOwnEntry (baseFields u) "name" = some (false, getValue u "name") := by
  unfold baseFields
  by_cases hb : hasOwn u "email" <;> by_cases hc : hasOwn u "image" <;>
    simp [h, hb, hc, getOwnEntry_defineProp_ne, getOwnEntry_defineProp_self]

theorem getOwnEntry_baseFields_email (u : JsObj) (h : hasOwn u "email" = true) :
    getOwnEntry (baseFields u) "email" = some (false, getValue u "email") := by
  unfold baseFields
  by_cases ha : hasOwn u "name" <;> by_cases hc : hasOwn u "image" <;>
    simp [h, ha, hc, getOwnEntry_defineProp_ne, getOwnEntry_defineProp_self]

theorem getOwnEntry_baseFields_image (u : JsObj) (h : hasOwn u "image" = true) :
    getOwnEntry (baseFields u) "image" = some (false, getValue u "image") := by
  unfold baseFields
  by_cases ha : hasOwn u "name" <;> by_cases hb : hasOwn u "email" <;>
    simp [h, ha, hb, getOwnEntry_defineProp_self]

theorem mergeUser_extra (u : JsObj) (k : String)
    (hnd : (u.map (fun kp => kp.1)).Nodup)
    (hk : k ∉ (["name", "email", "image"] : List String)) :
    getOwnEntry (mergeUser u) k = getOwnEntry u k := by
  unfold mergeUser
  have h1 : k ≠ "name" := fun hh => hk (by rw [hh]; simp)
  have h2 : k ≠ "email" := fun hh => hk (by rw [hh]; simp)
  have h3 : k ≠ "image" := fun hh => hk (by rw [hh]; simp)
  cases hsrc : getOwnEntry u k with
  | none =>
      rw [copyExtraProps_not_in_src u (baseFields u) _ k hsrc]
      exact getOwnEntry_baseFields_other u k h1 h2 h3
  | some p =>
      exact copyExtraProps_from_src u (baseFields u) _ k p hk hnd hsrc

theorem construct_vobj (sess : JsObj) :
    AuthSession.construct (.vobj sess) =
      copyExtraProps sess
        (applyExpires sess
          (match toRecord (getValue sess "user") with
           | some u => defineProp [] "user" (false, JsValue.vobj (mergeUser u))
           | none => defineProp [] "user" (false, JsValue.vnull)))
        ["user", "expires"] := by
  rfl

/-- Claim C8 — Session projection copies the base user fields
explicitly and every other own property, including accessor-defined
properties, of both the user object and the top-level session object
verbatim, so extension fields (e.g. a user-level roles array, a
top-level idToken) appear unchanged in the projected session. -/
theorem sessionProjection_preserves_extensions
    (sess u : JsObj)
    (hnds : (sess.map (fun kp => kp.1)).Nodup)
    (hndu : (u.map (fun kp => kp.1)).Nodup)
    (hu : getValue sess "user" = .vobj u) :
    getOwnEntry (AuthSession.construct (.vobj sess)) "user"
        = some (false, JsValue.vobj (mergeUser u))
    ∧ (∀ k, k ∉ (["name", "email", "image"] : List String) →
        getOwnEntry (mergeUser u) k = getOwnEntry u k)
    ∧ (∀ k, k ∈ (["name", "email", "image"] : List String) → hasOwn u k = true →
        getOwnEntry (mergeUser u) k = some (false, getValue u k))
    ∧ (∀ k, k ∉ (["user", "expires"] : List String) →
        getOwnEntry (AuthSession.construct (.vobj sess)) k = getOwnEntry sess k) := by
  have hw : (match toRecord (getValue sess "user") with
      | some u => defineProp [] "user" (false, JsValue.vobj (mergeUser u))
      | none => defineProp [] "user" (false, JsValue.vnull))
      = [("user", (false, JsValue.vobj (mergeUser u)))] := by
    rw [hu]; rfl
  refine ⟨?_, ?_, ?_, ?_⟩
  · rw [construct_vobj, hw]
    rw [copyExtraProps_excluded sess _ _ "user" (by simp)]
    rw [getOwnEntry_applyExpires sess _ "user" (by decide)]
    rfl
  · intro k hk
    exact mergeUser_extra u k hndu hk
  · intro k hk hown
    unfold mergeUser
    rw [copyExtraProps_excluded u (baseFields u) _ k hk]
    simp only [List.mem_cons, List.not_mem_nil, or_false] at hk
    rcases hk with h | h | h
    · subst h; exact getOwnEntry_baseFields_name u hown
    · subst h; exact getOwnEntry_baseFields_email u hown
    · subst h; exact getOwnEntry_baseFields_image u hown
  · intro k hk
    have h1 : k ≠ "user" := fun hh => hk (by rw [hh]; simp)
    have h2 : k ≠ "expires" := fun hh => hk (by rw [hh]; simp)
    rw [construct_vobj, hw]
    cases hsrc : getOwnEntry sess k with
    | none =>
        rw [copyExtraProps_not_in_src sess _ _ k hsrc]
        rw [getOwnEntry_applyExpires sess _ k h2]
        have h1' : ¬("user" = k) := fun hh => h1 hh.symm
        simp [getOwnEntry, h1', hsrc]
    | some p =>
        exact copyExtraProps_from_src sess _ _ k p (by simp [h1, h2]) hnds hsrc

/-- Witness for C8: a raw session whose user carries an extra
accessor-defined `roles` array and whose top level carries an extra
`idToken` reproduces both verbatim, alongside the base `name` field. -/
theorem sessionProjection_preserves_extensions_witness :
    getOwnEntry
        (AuthSession.construct (.vobj
          [("user", (false, JsValue.vobj
              [("name", (false, JsValue.vstr "Ada")),
               ("roles", (true, JsValue.vobj
                 [("0", (false, JsValue.vstr "admin")),
                  ("length", (false, JsValue.vnum 1))]))])),
           ("expires", (false, JsValue.vstr "2099-01-01T00:00:00.000Z")),
           ("idToken", (false, JsValue.vstr "tok-123"))]))
        "idToken" = some (false, JsValue.vstr "tok-123")
    ∧ getOwnEntry
        (mergeUser
          [("name", (false, JsValue.vstr "Ada")),
           ("roles", (true, JsValue.vobj
             [("0", (false, JsValue.vstr "admin")),
              ("length", (false, JsValue.vnum 1))]))])
        "roles" = some (true, JsValue.vobj
          [("0", (false, JsValue.vstr "admin")),
           ("length", (false, JsValue.vnum 1))])
    ∧ getOwnEntry
        (mergeUser
          [("name", (false, JsValue.vstr "Ada")),
           ("roles", (true, JsValue.vobj
             [("0", (false, JsValue.vstr "admin")),
              ("length", (false, JsValue.vnum 1))]))])
        "name" = some (false, JsValue.vstr "Ada") := by
  have h := sessionProjection_preserves_extensions
    [("user", (false, JsValue.vobj
        [("name", (false, JsValue.vstr "Ada")),
         ("roles", (true, JsValue.vobj
           [("0", (false, JsValue.vstr "admin")),
            ("length", (false, JsValue.vnum 1))]))])),
     ("expires", (false, JsValue.vstr "2099-01-01T00:00:00.000Z")),
     ("idToken", (false, JsValue.vstr "tok-123"))]
    [("name", (false, JsValue.vstr "Ada")),
     ("roles", (true, JsValue.vobj
       [("0", (false, JsValue.vstr "admin")),
        ("length", (false, JsValue.vnum 1))]))]
    (by decide) (by decide) rfl
  refine ⟨?_, ?_, ?_⟩
  · rw [h.2.2.2 "idToken" (by decide)]; rfl
  · rw [h.2.1 "roles" (by decide)]; rfl
  · rw [h.2.2.1 "name" (by decide) rfl]; rfl

/-- Counterexample for claim C9: a source session that is present but has
no user is projected to a session object (whose `user` field is `null`),
not to `null`, refuting "returns null exactly when the source session is
absent or its user is absent". -/
theorem sessionProjection_null_iff_counterexample :
    AuthSession.fromCore
        (.vobj [("expires", (false, JsValue.vstr "2099-01-01T00:00:00.000Z"))])
      ≠ none
    ∧ getValue [("expires", (false, JsValue.vstr "2099-01-01T00:00:00.000Z"))] "user"
        = JsValue.vundefined := by
  constructor
  · simp [AuthSession.fromCore, truthy]
  · rfl

/-- Claim C9 (amended) — Session projection returns null exactly when the
source session itself is absent (falsy); when the session is present but
its user is absent (not a record), the projection is a session object
whose `user` property is `null`, not `null` itself. -/
theorem sessionProjection_null_iff (src : JsValue) :
    (AuthSession.fromCore src = none ↔ truthy src = false)
    ∧ (∀ sess : JsObj, src = .vobj sess → toRecord (getValue sess "user") = none →
        AuthSession.fromCore src = some (AuthSession.construct src)
        ∧ getOwnEntry (AuthSession.construct src) "user" = some (false, JsValue.vnull)) := by
  constructor
  · cases htruthy : truthy src <;> simp [AuthSession.fromCore, htruthy]
  · intro sess hsess huser
    subst hsess
    constructor
    · simp [AuthSession.fromCore, truthy]
    · have hw : (match toRecord (getValue sess "user") with
          | some u => defineProp [] "user" (false, JsValue.vobj (mergeUser u))
          | none => defineProp [] "user" (false, JsValue.vnull))
          = [("user", (false, JsValue.vnull))] := by
        rw [huser]
        rfl
      rw [construct_vobj, hw]
      rw [copyExtraProps_excluded sess _ _ "user" (by simp)]
      rw [getOwnEntry_applyExpires sess _ "user" (by decide)]
      rfl

/-- Witness for the amended C9: a present session with no user projects
to a non-null session object with a null `user`, and a falsy core
session projects to null. -/
theorem sessionProjection_null_iff_witness :
    (AuthSession.fromCore JsValue.vnull = none)
    ∧ AuthSession.fromCore
        (.vobj [("expires", (false, JsValue.vstr "2099-01-01T00:00:00.000Z"))])
        = some (AuthSession.construct
            (.vobj [("expires", (false, JsValue.vstr "2099-01-01T00:00:00.000Z"))]))
    ∧ getOwnEntry
        (AuthSession.construct
          (.vobj [("expires", (false, JsValue.vstr "2099-01-01T00:00:00.000Z"))]))
        "user" = some (false, JsValue.vnull) := by
  refine ⟨?_, ?_, ?_⟩
  · exact (sessionProjection_null_iff JsValue.vnull).1.mpr rfl
  · exact ((sessionProjection_null_iff
      (.vobj [("expires", (false, JsValue.vstr "2099-01-01T00:00:00.000Z"))])).2
      [("expires", (false, JsValue.vstr "2099-01-01T00:00:00.000Z"))] rfl rfl).1
  · exact ((sessionProjection_null_iff
      (.vobj [("expires", (false, JsValue.vstr "2099-01-01T00:00:00.000Z"))])).2
      [("expires", (false, JsValue.vstr "2099-01-01T00:00:00.000Z"))] rfl rfl).2

/-! ## Guard protocol (`MixinAuthGuard`, src/auth.guard.ts)

The guard is modelled over:
* `MergedOptions` — the result of the spread-merge
  `{providers: [], ...defaultOptions, ...this.options,
  ...(await this.getAuthenticateOptions(context))}`, of which the guard
  reads the provider list length, the secret presence and the `property`
  name (`defaultOptions.property = "user"`);
* `SessionEnv` — the per-request environment: whether `NODE_ENV` is
  `production`, and the outcome of the engine call
  `Auth(new Request(url, {headers: {cookie}}), options)` together with
  `response.json()` parsing;
* `JsError` — a thrown JavaScript error, carrying whether it is an
  `UnauthorizedException` and its message. -/

structure JsError where
  isUnauthorizedException : Bool
  message : String
deriving DecidableEq, Repr

/-- Outcome of parsing the engine response body (`response.json()`). -/
inductive ParseOutcome where
  | parseFail : ParseOutcome
  | parsed (v : JsValue) : ParseOutcome

/-- Outcome of the engine call: it either throws, or responds with a
success flag (`response.ok`) and a body-parse outcome. -/
inductive EngineOutcome where
  | engineThrow (e : JsError) : EngineOutcome
  | respond (ok : Bool) (parse : ParseOutcome) : EngineOutcome

structure SessionEnv where
  production : Bool
  engine : EngineOutcome

structure MergedOptions where
  providersCount : Nat
  secretPresent : Bool
  property : Option String

/-- Method `getSession`: throw on missing providers, throw on a missing
secret in production, then call the engine; a non-ok response resolves to
`null`, a body-parse failure resolves to `null`, otherwise the parsed
session payload is returned. -/
def getSession (opts : MergedOptions) (env : SessionEnv) : Except JsError JsValue :=
  if opts.providersCount = 0 then
    .error ⟨false, "No authentication providers configured"⟩
  else if !opts.secretPresent && env.production then
    .error ⟨false, "AUTH_SECRET is required in production"⟩
  else
    match env.engine with
    | .engineThrow e => .error e
    | .respond ok parse =>
        if ok then
          match parse with
          | .parseFail => .ok .vnull
          | .parsed v => .ok v
        else .ok .vnull

/-- Method `getSessionOrError`: the try/catch wrapper turning `getSession`
into a `[session, error]` pair — `[session, null]` on success, `[null,
err]` when `getSession` throws. -/
def getSessionOrError (opts : MergedOptions) (env : SessionEnv) :
    JsValue × Option JsError :=
  match getSession opts env with
  | .ok v => (v, none)
  | .error e => (.vnull, some e)

/-- Method `handleRequest`: rethrow an `UnauthorizedException`, wrap any
other error into an `UnauthorizedException` carrying its message, throw
`UnauthorizedException "No user found in session"` when no (truthy) user
is present, and return the user otherwise. -/
def handleRequest (err : Option JsError) (user : JsValue) : Except JsError JsValue :=
  match err with
  | some e =>
      if e.isUnauthorizedException then .error e
      else .error ⟨true, e.message⟩
  | none =>
      if truthy user then .ok user
      else .error ⟨true, "No user found in session"⟩

/-- Expression `AuthSessionClass.fromCore(coreSession)?.toJSON() ?? null`
followed by `publicSession?.user ?? null`: the user exposed from the
mapped public session, with `null`/`undefined` collapsed to `null`. -/
def mappedUser (coreSession : JsValue) : JsValue :=
  match (AuthSession.fromCore coreSession).map AuthSession.toJSON with
  | none => .vnull
  | some ps =>
      match getValue ps "user" with
      | .vundefined => .vnull
      | .vnull => .vnull
      | v => v

/-- The `property` under which the user is attached:
`mergedOptions.property ?? defaultOptions.property`. -/
def userProperty (opts : MergedOptions) : String :=
  opts.property.getD "user"

/-- Method `handlePublicRoute`: resolve the session through
`getSessionOrError` (discarding any error), compute the mapped public
user, `Object.assign` the core session and the user onto the request,
and return `true`.  The only fallible step, `getSession`, is wrapped by
`getSessionOrError`, so this path is a total function: it cannot throw. -/
def handlePublicRoute (opts : MergedOptions) (env : SessionEnv) (request : JsObj) :
    JsObj × Bool :=
  let resolved := getSessionOrError opts env
  let user := mappedUser resolved.1
  (defineProp (defineProp request "session" (false, resolved.1))
      (userProperty opts) (false, user),
    true)

/-- Method `handleProtectedRoute`: resolve the session through
`getSessionOrError`, pass the captured error and mapped user to
`handleRequest` (which throws `UnauthorizedException` on error or absent
user), then `Object.assign` the core session and the validated user onto
the request and return `true`. -/
def handleProtectedRoute (opts : MergedOptions) (env : SessionEnv) (request : JsObj) :
    Except JsError (JsObj × Bool) :=
  let resolved := getSessionOrError opts env
  match handleRequest resolved.2 (mappedUser resolved.1) with
  | .error e => .error e
  | .ok user =>
      .ok (defineProp (defineProp request "session" (false, resolved.1))
            (userProperty opts) (false, user),
          true)

/-- Observable side effects of a `canActivate` run, beyond the request
mutation: reading the `IS_PUBLIC_KEY` route metadata through the
reflector, and invoking the authentication engine. -/
inductive GuardEffect where
  | metadataRead : GuardEffect
  | engineInvoked : GuardEffect
deriving DecidableEq, Repr

/-- Whether a session resolution reaches the engine call: both
precondition checks of `getSession` must pass. -/
def engineConsulted (opts : MergedOptions) (env : SessionEnv) : Bool :=
  !(opts.providersCount == 0) && !(!opts.secretPresent && env.production)

/-- Execution context as read by the guard: `context.getType()` and the
`IS_PUBLIC_KEY` metadata (`undefined` when no decorator is present). -/
structure ExecContext where
  ctxType : String
  isPublicMeta : Option Bool

/-- Method `canActivate`: non-HTTP context types return `true` at once;
otherwise the public-route metadata is read and the request is routed to
the public or protected handler.  The effect list records the metadata
read and, when the session resolution reaches it, the engine call. -/
def canActivate (opts : MergedOptions) (env : SessionEnv) (ctx : ExecContext)
    (request : JsObj) : Except JsError (JsObj × Bool) × List GuardEffect :=
  if ctx.ctxType ≠ "http" then (.ok (request, true), [])
  else
    let effects := GuardEffect.metadataRead ::
      (if engineConsulted opts env then [GuardEffect.engineInvoked] else [])
    match ctx.isPublicMeta with
    | some true => (.ok (handlePublicRoute opts env request), effects)
    | _ => (handleProtectedRoute opts env request, effects)

/-! ### Guard theorems -/

theorem handleRequest_error_unauthorized (err : Option JsError) (user : JsValue)
    (e : JsError) (h : handleRequest err user = .error e) :
    e.isUnauthorizedException = true := by
  cases err with
  | some e0 =>
      by_cases hflag : e0.isUnauthorizedException
      · simp [handleRequest, hflag] at h
        rw [← h]
        exact hflag
      · simp [handleRequest, hflag] at h
        rw [← h]
  | none =>
      by_cases htr : truthy user
      · simp [handleRequest, htr] at h
      · simp [handleRequest, htr] at h
        rw [← h]

theorem handleRequest_some_error (er : JsError) (user : JsValue) :
    ∃ e, handleRequest (some er) user = .error e
      ∧ e.isUnauthorizedException = true ∧ e.message = er.message := by
  by_cases hflag : er.isUnauthorizedException
  · exact ⟨er, by simp [handleRequest, hflag], hflag, rfl⟩
  · exact ⟨⟨true, er.message⟩, by simp [handleRequest, hflag], rfl, rfl⟩

/-- Claim C1 — On the protected path, every thrown error is an
`UnauthorizedException`; a session-resolution error is rethrown or
wrapped with the underlying error's message, an absent user throws
`UnauthorizedException "No user found in session"`, and a resolvable
session with a truthy mapped user attaches the session and the user
under the configured property and returns allow. -/
theorem guard_protectedRoute_rejection
    (opts : MergedOptions) (env : SessionEnv) (request : JsObj)
    (hp : userProperty opts ≠ "session") :
    (∀ e, handleProtectedRoute opts env request = .error e →
        e.isUnauthorizedException = true)
    ∧ (∀ er, (getSessionOrError opts env).2 = some er →
        ∃ e, handleProtectedRoute opts env request = .error e
          ∧ e.isUnauthorizedException = true ∧ e.message = er.message)
    ∧ ((getSessionOrError opts env).2 = none →
        mappedUser (getSessionOrError opts env).1 = .vnull →
        handleProtectedRoute opts env request
          = .error ⟨true, "No user found in session"⟩)
    ∧ (∀ u, (getSessionOrError opts env).2 = none →
        mappedUser (getSessionOrError opts env).1 = u → truthy u = true →
        ∃ req', handleProtectedRoute opts env request = .ok (req', true)
          ∧ getOwnEntry req' "session" = some (false, (getSessionOrError opts env).1)
          ∧ getOwnEntry req' (userProperty opts) = some (false, u)) := by
  have hps : ("session" : String) ≠ userProperty opts := fun hh => hp hh.symm
  refine ⟨?_, ?_, ?_, ?_⟩
  · intro e he
    simp only [handleProtectedRoute] at he
    cases hh : handleRequest (getSessionOrError opts env).2
        (mappedUser (getSessionOrError opts env).1) with
    | error e' =>
        rw [hh] at he
        simp only [Except.error.injEq] at he
        subst he
        exact handleRequest_error_unauthorized _ _ _ hh
    | ok user => rw [hh] at he; exact absurd he (by simp)
  · intro er her
    obtain ⟨e, he, hflag, hmsg⟩ :=
      handleRequest_some_error er (mappedUser (getSessionOrError opts env).1)
    refine ⟨e, ?_, hflag, hmsg⟩
    simp only [handleProtectedRoute, her] at he ⊢
    rw [he]
  · intro hnone huser
    simp only [handleProtectedRoute, hnone, huser]
    simp [handleRequest, truthy]
  · intro u hnone hu htr
    refine ⟨defineProp (defineProp request "session" (false, (getSessionOrError opts env).1))
        (userProperty opts) (false, u), ?_, ?_, ?_⟩
    · simp only [handleProtectedRoute, hnone, hu]
      simp [handleRequest, htr]
    · rw [getOwnEntry_defineProp_ne _ _ _ _ hps]
      exact getOwnEntry_defineProp_self request "session" _
    · exact getOwnEntry_defineProp_self _ (userProperty opts) _

/-- Witness for C1: with one provider, a secret, and an engine response
whose payload carries a user, the protected path allows access and
attaches the mapped user under the default `user` property. -/
theorem guard_protectedRoute_rejection_witness :
    (∃ req', handleProtectedRoute ⟨1, true, none⟩
        ⟨false, .respond true (.parsed (.vobj
          [("user", (false, JsValue.vobj [("name", (false, JsValue.vstr "Ada"))])),
           ("expires", (false, JsValue.vstr "2099-01-01T00:00:00.000Z"))]))⟩
        [] = .ok (req', true)
      ∧ getOwnEntry req' "session" = some (false, JsValue.vobj
          [("user", (false, JsValue.vobj [("name", (false, JsValue.vstr "Ada"))])),
           ("expires", (false, JsValue.vstr "2099-01-01T00:00:00.000Z"))])
      ∧ getOwnEntry req' "user"
          = some (false, JsValue.vobj [("name", (false, JsValue.vstr "Ada"))]))
    ∧ handleProtectedRoute ⟨1, true, none⟩
        ⟨false, .respond false .parseFail⟩ []
        = .error ⟨true, "No user found in session"⟩ := by
  constructor
  · exact (guard_protectedRoute_rejection ⟨1, true, none⟩
      ⟨false, .respond true (.parsed (.vobj
        [("user", (false, JsValue.vobj [("name", (false, JsValue.vstr "Ada"))])),
         ("expires", (false, JsValue.vstr "2099-01-01T00:00:00.000Z"))]))⟩
      [] (by decide)).2.2.2
      (JsValue.vobj [("name", (false, JsValue.vstr "Ada"))]) rfl rfl rfl
  · exact (guard_protectedRoute_rejection ⟨1, true, none⟩
      ⟨false, .respond false .parseFail⟩ [] (by decide)).2.2.1 rfl rfl

/-- Claim C2 — The public path never throws: it is a total function that
always returns allow, attaching the resolved core session (null when
resolution failed, including when the engine call throws) and the mapped
user (null when absent) under the configured property. -/
theorem guard_publicRoute_idempotence
    (opts : MergedOptions) (env : SessionEnv) (request : JsObj)
    (hp : userProperty opts ≠ "session") :
    (handlePublicRoute opts env request).2 = true
    ∧ getOwnEntry (handlePublicRoute opts env request).1 "session"
        = some (false, (getSessionOrError opts env).1)
    ∧ getOwnEntry (handlePublicRoute opts env request).1 (userProperty opts)
        = some (false, mappedUser (getSessionOrError opts env).1)
    ∧ (∀ e, (getSessionOrError opts env).2 = some e →
        (getSessionOrError opts env).1 = JsValue.vnull)
    ∧ mappedUser JsValue.vnull = JsValue.vnull := by
  have hps : ("session" : String) ≠ userProperty opts := fun hh => hp hh.symm
  refine ⟨rfl, ?_, ?_, ?_, rfl⟩
  · simp only [handlePublicRoute]
    rw [getOwnEntry_defineProp_ne _ _ _ _ hps]
    exact getOwnEntry_defineProp_self request "session" _
  · exact getOwnEntry_defineProp_self _ (userProperty opts) _
  · intro e he
    cases hh : getSession opts env with
    | ok v => simp [getSessionOrError, hh] at he
    | error e0 => simp [getSessionOrError, hh]

/-- Witness for C2: with an engine call that throws, the public path
still allows access and attaches a null session and null user. -/
theorem guard_publicRoute_idempotence_witness :
    (handlePublicRoute ⟨1, true, none⟩
        ⟨false, .engineThrow ⟨false, "engine exploded"⟩⟩ []).2 = true
    ∧ getOwnEntry (handlePublicRoute ⟨1, true, none⟩
        ⟨false, .engineThrow ⟨false, "engine exploded"⟩⟩ []).1 "session"
        = some (false, JsValue.vnull)
    ∧ getOwnEntry (handlePublicRoute ⟨1, true, none⟩
        ⟨false, .engineThrow ⟨false, "engine exploded"⟩⟩ []).1 "user"
        = some (false, JsValue.vnull) := by
  have h := guard_publicRoute_idempotence ⟨1, true, none⟩
    ⟨false, .engineThrow ⟨false, "engine exploded"⟩⟩ [] (by decide)
  exact ⟨h.1, h.2.1.trans rfl, (h.2.2.1).trans rfl⟩

/-- Claim C3 — Session resolution never surfaces engine-response
failures as errors (given the configuration preconditions hold): a
non-ok response resolves to null, an ok response whose body fails to
parse resolves to null, and any engine response yields a value rather
than a thrown error. -/
theorem sessionResolver_failures_resolve_null
    (opts : MergedOptions) (env : SessionEnv)
    (hprov : opts.providersCount ≠ 0)
    (hsec : opts.secretPresent = true ∨ env.production = false) :
    (∀ p, env.engine = .respond false p → getSession opts env = .ok .vnull)
    ∧ (env.engine = .respond true .parseFail → getSession opts env = .ok .vnull)
    ∧ (∀ ok p, env.engine = .respond ok p → ∃ v, getSession opts env = .ok v) := by
  have h2 : (!opts.secretPresent && env.production) = false := by
    rcases hsec with h | h <;> simp [h]
  refine ⟨?_, ?_, ?_⟩
  · intro p hp
    simp [getSession, hprov, h2, hp]
  · intro hp
    simp [getSession, hprov, h2, hp]
  · intro ok p hp
    cases ok with
    | false => exact ⟨.vnull, by simp [getSession, hprov, h2, hp]⟩
    | true =>
        cases p with
        | parseFail => exact ⟨.vnull, by simp [getSession, hprov, h2, hp]⟩
        | parsed v => exact ⟨v, by simp [getSession, hprov, h2, hp]⟩

/-- Witness for C3: a non-ok engine response and an ok response with an
unparsable body both resolve to null. -/
theorem sessionResolver_failures_resolve_null_witness :
    getSession ⟨1, true, none⟩ ⟨false, .respond false (.parsed (.vobj []))⟩
      = .ok .vnull
    ∧ getSession ⟨1, true, none⟩ ⟨false, .respond true .parseFail⟩ = .ok .vnull := by
  constructor
  · exact (sessionResolver_failures_resolve_null ⟨1, true, none⟩
      ⟨false, .respond false (.parsed (.vobj []))⟩ (by decide) (Or.inl rfl)).1
      (.parsed (.vobj [])) rfl
  · exact (sessionResolver_failures_resolve_null ⟨1, true, none⟩
      ⟨false, .respond true .parseFail⟩ (by decide) (Or.inl rfl)).2.1 rfl

/-- Claim C10 — For a non-HTTP execution context, `canActivate` returns
allow immediately: no route metadata is read, the engine is never
invoked, and the request object is returned unmodified. -/
theorem guard_nonHttp_context_allows
    (opts : MergedOptions) (env : SessionEnv) (ctx : ExecContext) (request : JsObj)
    (h : ctx.ctxType ≠ "http") :
    canActivate opts env ctx request = (.ok (request, true), []) := by
  simp [canActivate, h]

/-- Witness for C10: a websocket-typed context is allowed untouched even
with an engine that would throw. -/
theorem guard_nonHttp_context_allows_witness :
    canActivate ⟨1, true, none⟩ ⟨true, .engineThrow ⟨false, "engine exploded"⟩⟩
        ⟨"ws", none⟩ [("pre", (false, JsValue.vstr "kept"))]
      = (.ok ([("pre", (false, JsValue.vstr "kept"))], true), []) :=
  guard_nonHttp_context_allows ⟨1, true, none⟩
    ⟨true, .engineThrow ⟨false, "engine exploded"⟩⟩
    ⟨"ws", none⟩ [("pre", (false, JsValue.vstr "kept"))] (by decide)

/-! ## Inbound translator (`toWebRequest`, src/utils/http-adapters.ts)

The repository carries two variants of the translators: an earlier
buffering variant and a later streaming variant.  Both are embedded.
Header processing is shared verbatim between the two variants. -/

/-- A native header map entry value: a string array, a scalar string, or
`undefined`. -/
inductive RawHeaderVal where
  | scalar (s : String) : RawHeaderVal
  | arr (vs : List String) : RawHeaderVal
  | undefV : RawHeaderVal

/-- One native header entry processed by the header loop of
`toWebRequest`: append each truthy element of an array value
individually, append a truthy scalar once, and skip falsy values
(`v && headers.append(key, v)`). -/
def toWebHeadersStep (acc : List (String × String)) (kv : String × RawHeaderVal) :
    List (String × String) :=
  match kv.2 with
  | .arr vs => vs.foldl (fun a v => if v = "" then a else a ++ [(kv.1, v)]) acc
  | .scalar s => if s = "" then acc else acc ++ [(kv.1, s)]
  | .undefV => acc

/-- Header loop of `toWebRequest` over the whole native header map. -/
def toWebHeaders (raw : List (String × RawHeaderVal)) : List (String × String) :=
  raw.foldl toWebHeadersStep []

/-- Per-entry header contribution as the specification words it: an
array contributes its non-empty elements in order, a truthy scalar
contributes itself once, and a falsy or absent value contributes no
header at all.  Stated from the spec for comparison with the code's
fold. -/
def headerEntryContrib (k : String) (v : RawHeaderVal) : List (String × String) :=
  match v with
  | .arr vs => (vs.filter (fun s => s ≠ "")).map (fun s => (k, s))
  | .scalar s => if s ≠ "" then [(k, s)] else []
  | .undefV => []

/-- JavaScript `String.prototype.toLowerCase` on the ASCII strings the
adapters handle (header names, method names): per-character lowercasing. -/
def jsToLower (s : String) : String :=
  String.mk (s.data.map Char.toLower)

/-- JavaScript `String.prototype.toUpperCase` on the ASCII strings the
adapters handle: per-character uppercasing. -/
def jsToUpper (s : String) : String :=
  String.mk (s.data.map Char.toUpper)

/-- Fetch `Headers.get`: the values stored under a name
(case-insensitively) joined with a comma and a space, or none when the
header is absent. -/
def getHeader (hs : List (String × String)) (name : String) : Option String :=
  match (hs.filter (fun p => jsToLower p.1 = jsToLower name)).map (fun p => p.2) with
  | [] => none
  | vs => some (String.intercalate ", " vs)

/-- JavaScript `String.prototype.includes` / an unanchored regex match:
`pat` occurs contiguously somewhere in `s`. -/
def strContains (s pat : String) : Bool :=
  strContainsAux s.data pat.data
where
  strContainsAux : List Char → List Char → Bool
    | cs, pc =>
      pc.isPrefixOf cs ||
        match cs with
        | [] => false
        | _ :: rest => strContainsAux rest pc

/-- Test `/GET|HEAD/.test(method)`: an unanchored search for either
literal. -/
def testGetHead (method : String) : Bool :=
  strContains method "GET" || strContains method "HEAD"

/-- A primitive value in a parsed body record (string or number), as
exercised by the adapters. -/
inductive QsPrim where
  | qstr (s : String) : QsPrim
  | qnum (n : Int) : QsPrim

/-- A parsed-body field value: a primitive or an array of primitives
(the fragment of body shapes these claims and the adapters exercise). -/
inductive QsVal where
  | prim (p : QsPrim) : QsVal
  | qarr (elems : List QsPrim) : QsVal

/-- JavaScript `String(value)` on a body primitive. -/
def qsPrimStr : QsPrim → String
  | .qstr s => s
  | .qnum n => toString n

/-- Uppercase hexadecimal digit. -/
def hexDigit (n : Nat) : Char :=
  if n < 10 then Char.ofNat (48 + n) else Char.ofNat (55 + n)

/-- Percent-encode one byte as `%XX` with uppercase hex. -/
def qsEncodeByte (b : Nat) : String :=
  String.mk ['%', hexDigit (b / 16), hexDigit (b % 16)]

/-- Character set the qs RFC3986 encoder leaves unencoded:
`A-Z a-z 0-9 - . _ ~`. -/
def qsKeepChar (c : Char) : Bool :=
  c.isAlphanum || c = '-' || c = '.' || c = '_' || c = '~'

/-- The qs default (RFC3986) string encoder: keep unreserved characters,
percent-encode the UTF-8 bytes of everything else. -/
def qsEncode (s : String) : String :=
  s.data.foldl
    (fun acc c =>
      if qsKeepChar c then acc ++ String.singleton c
      else acc ++ String.join
        (((String.singleton c).toUTF8.toList).map (fun b => qsEncodeByte b.toNat)))
    ""

/-- The `key=value` pairs contributed by one body field under
`qs.stringify(..., { arrayFormat: 'repeat' })`: an array value repeats
the key for each element instead of bracket-indexing it. -/
def qsPairs (k : String) (v : QsVal) : List String :=
  match v with
  | .prim p => [qsEncode k ++ "=" ++ qsEncode (qsPrimStr p)]
  | .qarr ps => ps.map (fun p => qsEncode k ++ "=" ++ qsEncode (qsPrimStr p))

/-- Model of `qs.stringify(obj, { arrayFormat: 'repeat' })` on a flat
record of primitives and primitive arrays. -/
def qsStringifyRepeat (obj : List (String × QsVal)) : String :=
  String.intercalate "&" (obj.flatMap (fun kv => qsPairs kv.1 kv.2))

/-- JSON string escaping as used by `JSON.stringify` (the common
escapes; exotic control characters are not exercised by the adapters). -/
def jsonEscape (s : String) : String :=
  s.data.foldl
    (fun acc c =>
      if c = '"' then acc ++ "\\\""
      else if c = '\\' then acc ++ "\\\\"
      else if c = '\n' then acc ++ "\\n"
      else if c = '\r' then acc ++ "\\r"
      else if c = '\t' then acc ++ "\\t"
      else acc ++ String.singleton c)
    ""

/-- `JSON.stringify` on a body primitive. -/
def jsonOfPrim : QsPrim → String
  | .qstr s => "\"" ++ jsonEscape s ++ "\""
  | .qnum n => toString n

/-- `JSON.stringify` on a body field value. -/
def jsonOfQsVal : QsVal → String
  | .prim p => jsonOfPrim p
  | .qarr ps => "[" ++ String.intercalate "," (ps.map jsonOfPrim) ++ "]"

/-- The native body as returned by the adapter's body accessor:
absent/undefined, null, a parsed object record, a string, or a raw byte
buffer. -/
inductive RawBody where
  | undefB : RawBody
  | nullB : RawBody
  | objB (o : List (String × QsVal)) : RawBody
  | strB (s : String) : RawBody
  | bufB (bytes : List Nat) : RawBody

/-- `JSON.stringify` on a native body (`objB`/`strB`/`bufB`; a Node
`Buffer` serializes to its `{type, data}` object form). -/
def jsonOfBody : RawBody → String
  | .objB o =>
      "\x7b" ++ String.intercalate ","
        (o.map (fun kv => "\"" ++ jsonEscape kv.1 ++ "\":" ++ jsonOfQsVal kv.2))
        ++ "\x7d"
  | .strB s => "\"" ++ jsonEscape s ++ "\""
  | .bufB bytes =>
      "\x7b\"type\":\"Buffer\",\"data\":[" ++
        String.intercalate "," (bytes.map toString) ++ "]\x7d"
  | .undefB => ""
  | .nullB => "null"

/-- `qs.stringify` on a native body: a record stringifies field by
field, a primitive stringifies to the empty string, and a `Buffer`
(being an object of byte-valued indices) stringifies index by index. -/
def qsStringifyBody : RawBody → String
  | .objB o => qsStringifyRepeat o
  | .strB _ => ""
  | .bufB bytes =>
      String.intercalate "&"
        ((List.range bytes.length).zip bytes |>.map
          (fun ib => toString ib.1 ++ "=" ++ toString ib.2))
  | .undefB => ""
  | .nullB => ""

/-- The body carried by the canonical request: none, text, or bytes. -/
inductive BodyInit where
  | noBody : BodyInit
  | textBody (s : String) : BodyInit
  | bytesBody (bytes : List Nat) : BodyInit
deriving DecidableEq, Repr

/-- Body computation of the buffering `toWebRequest` variant: the method
test is `!/GET|HEAD/.test(method)` on the method string as-is; then
content-type-directed encoding (form re-serialization with repeated
keys, JSON stringification, string/buffer pass-through, repeated-key
form fallback for other objects). -/
def toWebRequestBodyBuffering (method : String) (contentType : Option String)
    (rawBody : RawBody) : BodyInit :=
  if testGetHead method then .noBody
  else
    match rawBody with
    | .undefB => .noBody
    | .nullB => .noBody
    | rb =>
        if (contentType.map
            (fun ct => strContains ct "application/x-www-form-urlencoded")).getD false then
          .textBody (qsStringifyBody rb)
        else if (contentType.map
            (fun ct => strContains ct "application/json")).getD false then
          .textBody (jsonOfBody rb)
        else
          match rb with
          | .strB s => .textBody s
          | .bufB bytes => .bytesBody bytes
          | .objB o => .textBody (qsStringifyRepeat o)
          | _ => .noBody

/-- Body computation of the streaming `toWebRequest` variant: identical
branch structure, except the method test runs on
`method.toUpperCase()` and a buffer is converted to a `Uint8Array`
(still a byte body). -/
def toWebRequestBodyStreaming (method : String) (contentType : Option String)
    (rawBody : RawBody) : BodyInit :=
  if testGetHead (jsToUpper method) then .noBody
  else
    match rawBody with
    | .undefB => .noBody
    | .nullB => .noBody
    | rb =>
        if (contentType.map
            (fun ct => strContains ct "application/x-www-form-urlencoded")).getD false then
          .textBody (qsStringifyBody rb)
        else if (contentType.map
            (fun ct => strContains ct "application/json")).getD false then
          .textBody (jsonOfBody rb)
        else
          match rb with
          | .bufB bytes => .bytesBody bytes
          | .strB s => .textBody s
          | .objB o => .textBody (qsStringifyRepeat o)
          | _ => .noBody

/-- Canonical (fetch-style) request assembled by `toWebRequest`. -/
structure CanonicalRequest where
  url : String
  method : String
  headers : List (String × String)
  body : BodyInit

/-- The native request facts exposed through the capability-set adapter:
protocol, host, raw path+query, method, header map, body. -/
structure NativeRequest where
  protocol : String
  host : String
  url : String
  method : String
  headers : List (String × RawHeaderVal)
  body : RawBody

/-- Buffering `toWebRequest`: URL from protocol/host/path, filtered
headers, content-type read back from the built headers, and the
buffering body computation. -/
def toWebRequestBuffering (r : NativeRequest) : CanonicalRequest :=
  { url := r.protocol ++ "://" ++ r.host ++ r.url
    method := r.method
    headers := toWebHeaders r.headers
    body := toWebRequestBodyBuffering r.method
      (getHeader (toWebHeaders r.headers) "content-type") r.body }

/-- Streaming `toWebRequest`: same shape with the streaming body
computation. -/
def toWebRequestStreaming (r : NativeRequest) : CanonicalRequest :=
  { url := r.protocol ++ "://" ++ r.host ++ r.url
    method := r.method
    headers := toWebHeaders r.headers
    body := toWebRequestBodyStreaming r.method
      (getHeader (toWebHeaders r.headers) "content-type") r.body }

/-! ## Outbound translator (`toHttpResponse`, src/utils/http-adapters.ts)

Both variants fold the canonical response's header entries into a plain
record mapping a header name to either a scalar string or an array of
strings, then issue one `adapter.setHeader` call per record entry. -/

/-- A grouped header record value: a scalar string or a string array. -/
inductive HVal where
  | hstr (s : String) : HVal
  | harr (vs : List String) : HVal
deriving DecidableEq, Repr

/-- Record lookup `acc[key]` on the grouped-header object. -/
def recLookup : List (String × HVal) → String → Option HVal
  | [], _ => none
  | (k', v) :: rest, k => if k' = k then some v else recLookup rest k

/-- Record assignment `acc[key] = value`: replace in place when the key
exists, append otherwise. -/
def recSet : List (String × HVal) → String → HVal → List (String × HVal)
  | [], k, v => [(k, v)]
  | (k', v') :: rest, k, v =>
      if k' = k then (k, v) :: rest else (k', v') :: recSet rest k v

/-- Reduce callback of the buffering `toHttpResponse`: a set-cookie
header (case-insensitive) accumulates `[...(acc[lowerKey] || []),
value]` under the lowercased key (spreading a string into its characters
in the unreachable case where a scalar were stored there); any other
header is stored under its original key, last value winning. -/
def groupStepBuffering (acc : List (String × HVal)) (kv : String × String) :
    List (String × HVal) :=
  let lowerKey := jsToLower kv.1
  if lowerKey = "set-cookie" then
    let prev : List String :=
      match recLookup acc lowerKey with
      | some (.harr vs) => vs
      | some (.hstr s) => s.data.map (fun c => String.singleton c)
      | none => []
    recSet acc lowerKey (.harr (prev ++ [kv.2]))
  else recSet acc kv.1 (.hstr kv.2)

/-- Header grouping of the buffering `toHttpResponse` variant. -/
def groupHeadersBuffering (entries : List (String × String)) : List (String × HVal) :=
  entries.foldl groupStepBuffering []

/-- forEach callback of the streaming `toHttpResponse`: push onto an
existing array, promote a truthy scalar to a two-element array, start a
fresh one-element array otherwise; non-set-cookie headers overwrite
under their original key. -/
def groupStepStreaming (acc : List (String × HVal)) (kv : String × String) :
    List (String × HVal) :=
  let lowerKey := jsToLower kv.1
  if lowerKey = "set-cookie" then
    match recLookup acc lowerKey with
    | some (.harr vs) => recSet acc lowerKey (.harr (vs ++ [kv.2]))
    | some (.hstr s) =>
        if s ≠ "" then recSet acc lowerKey (.harr [s, kv.2])
        else recSet acc lowerKey (.harr [kv.2])
    | none => recSet acc lowerKey (.harr [kv.2])
  else recSet acc kv.1 (.hstr kv.2)

/-- Header grouping of the streaming `toHttpResponse` variant. -/
def groupHeadersStreaming (entries : List (String × String)) : List (String × HVal) :=
  entries.foldl groupStepStreaming []

/-- The values of all header occurrences whose name is `set-cookie`
case-insensitively, in original order. -/
def setCookieValues (entries : List (String × String)) : List String :=
  (entries.filter (fun kv => jsToLower kv.1 = "set-cookie")).map (fun kv => kv.2)

/-- Expected `set-cookie` record entry: absent without occurrences, the
accumulated array otherwise. -/
def cookieOpt : List String → Option HVal
  | [] => none
  | vs => some (.harr vs)

/-- Expected `set-cookie` portion of the grouped record as a sublist:
empty without occurrences, exactly one array-valued entry otherwise. -/
def cookieFilterEntry : List String → List (String × HVal)
  | [] => []
  | vs => [("set-cookie", HVal.harr vs)]

/-- The value of the last header entry whose name equals `name` exactly
(last-value-wins semantics of plain record assignment). -/
def lastExact : List (String × String) → String → Option String
  | [], _ => none
  | (k, v) :: rest, name =>
      match lastExact rest name with
      | some w => some w
      | none => if k = name then some v else none

/-- Boolean test: does this grouped-record entry carry a set-cookie name
(case-insensitively)? -/
def isSetCookieName (p : String × HVal) : Bool :=
  jsToLower p.1 = "set-cookie"

theorem recLookup_recSet_self (m : List (String × HVal)) (k : String) (v : HVal) :
    recLookup (recSet m k v) k = some v := by
  induction m with
  | nil => simp [recSet, recLookup]
  | cons hd tl ih =>
      cases hd with
      | mk k0 v0 =>
          by_cases h : k0 = k
          · simp [recSet, recLookup, h]
          · simp [recSet, recLookup, h, ih]

theorem recLookup_recSet_ne (m : List (String × HVal)) (k : String) (v : HVal)
    (k' : String) (h : k' ≠ k) :
    recLookup (recSet m k v) k' = recLookup m k' := by
  have hne : ¬(k = k') := fun hh => h hh.symm
  induction m with
  | nil => simp [recSet, recLookup, hne]
  | cons hd tl ih =>
      cases hd with
      | mk k0 v0 =>
          by_cases h0 : k0 = k
          · subst h0
            simp [recSet, recLookup, hne]
          · simp [recSet, recLookup, h0, ih]

theorem filter_recSet_other (m : List (String × HVal)) (k : String) (v : HVal)
    (hk : ¬(jsToLower k = "set-cookie")) :
    (recSet m k v).filter isSetCookieName = m.filter isSetCookieName := by
  have hf : isSetCookieName (k, v) = false := by
    simp [isSetCookieName, hk]
  induction m with
  | nil => simp [recSet, List.filter, hf]
  | cons hd tl ih =>
      cases hd with
      | mk k0 v0 =>
          by_cases h0 : k0 = k
          · subst h0
            have hf0 : isSetCookieName (k0, v0) = false := by
              simp [isSetCookieName, hk]
            simp [recSet, List.filter_cons, hf, hf0]
          · simp [recSet, List.filter_cons, h0, ih]

theorem setCookie_toLower : jsToLower "set-cookie" = "set-cookie" := by
  decide

theorem isSetCookieName_setCookie (v : HVal) :
    isSetCookieName ("set-cookie", v) = true := by
  simp [isSetCookieName, setCookie_toLower]

theorem ne_setCookie_of_not_isSetCookieName (k0 : String) (v0 : HVal)
    (hsc : ¬isSetCookieName (k0, v0) = true) : k0 ≠ "set-cookie" := by
  intro hh
  exact hsc (hh ▸ isSetCookieName_setCookie v0)

theorem filter_recSet_cookie_none (m : List (String × HVal)) (v : HVal)
    (hm : m.filter isSetCookieName = []) :
    (recSet m "set-cookie" v).filter isSetCookieName = [("set-cookie", v)] := by
  induction m with
  | nil => simp [recSet, List.filter, isSetCookieName_setCookie]
  | cons hd tl ih =>
      cases hd with
      | mk k0 v0 =>
          rw [List.filter_cons] at hm
          by_cases hsc : isSetCookieName (k0, v0) = true
          · rw [if_pos hsc] at hm
            exact absurd hm (by simp)
          · rw [if_neg hsc] at hm
            have hk0 : k0 ≠ "set-cookie" := ne_setCookie_of_not_isSetCookieName k0 v0 hsc
            simp only [recSet, if_neg hk0, List.filter_cons, hsc, if_neg]
            simpa [hsc] using ih hm

theorem filter_recSet_cookie_some (m : List (String × HVal)) (v w : HVal)
    (hm : m.filter isSetCookieName = [("set-cookie", w)]) :
    (recSet m "set-cookie" v).filter isSetCookieName = [("set-cookie", v)] := by
  induction m with
  | nil => simp [List.filter] at hm
  | cons hd tl ih =>
      cases hd with
      | mk k0 v0 =>
          rw [List.filter_cons] at hm
          by_cases hsc : isSetCookieName (k0, v0) = true
          · rw [if_pos hsc] at hm
            rw [List.cons.injEq] at hm
            have hk0 : k0 = "set-cookie" := congrArg Prod.fst hm.1
            simp only [recSet, if_pos hk0, List.filter_cons,
              isSetCookieName_setCookie, if_pos]
            simp [hm.2]
          · rw [if_neg hsc] at hm
            have hk0 : k0 ≠ "set-cookie" := ne_setCookie_of_not_isSetCookieName k0 v0 hsc
            simp only [recSet, if_neg hk0, List.filter_cons]
            simp [hsc, ih hm]

theorem setCookieValues_cons_pos (kv : String × String) (rest : List (String × String))
    (hk : jsToLower kv.1 = "set-cookie") :
    setCookieValues (kv :: rest) = kv.2 :: setCookieValues rest := by
  simp [setCookieValues, List.filter_cons, hk]

theorem setCookieValues_cons_neg (kv : String × String) (rest : List (String × String))
    (hk : ¬(jsToLower kv.1 = "set-cookie")) :
    setCookieValues (kv :: rest) = setCookieValues rest := by
  simp [setCookieValues, List.filter_cons, hk]

theorem grouped_fold_lookup
    (step : List (String × HVal) → (String × String) → List (String × HVal))
    (hstep : ∀ acc kv vs, recLookup acc "set-cookie" = cookieOpt vs →
      step acc kv = if jsToLower kv.1 = "set-cookie"
        then recSet acc "set-cookie" (.harr (vs ++ [kv.2]))
        else recSet acc kv.1 (.hstr kv.2))
    (es : List (String × String)) :
    ∀ (acc : List (String × HVal)) (vs0 : List String),
      recLookup acc "set-cookie" = cookieOpt vs0 →
      recLookup (es.foldl step acc) "set-cookie" = cookieOpt (vs0 ++ setCookieValues es)
      ∧ (∀ name, ¬(jsToLower name = "set-cookie") →
          recLookup (es.foldl step acc) name =
            (match lastExact es name with
             | some v => some (.hstr v)
             | none => recLookup acc name)) := by
  induction es with
  | nil =>
      intro acc vs0 hacc
      refine ⟨by simpa [setCookieValues] using hacc, fun name _ => by simp [lastExact]⟩
  | cons kv rest ih =>
      intro acc vs0 hacc
      rw [List.foldl_cons, hstep acc kv vs0 hacc]
      by_cases hk : jsToLower kv.1 = "set-cookie"
      · rw [if_pos hk]
        have hacc' : recLookup (recSet acc "set-cookie" (.harr (vs0 ++ [kv.2])))
            "set-cookie" = cookieOpt (vs0 ++ [kv.2]) := by
          rw [recLookup_recSet_self]
          cases vs0 <;> rfl
        obtain ⟨h1, h3⟩ := ih (recSet acc "set-cookie" (.harr (vs0 ++ [kv.2])))
          (vs0 ++ [kv.2]) hacc'
        refine ⟨?_, ?_⟩
        · rw [h1, setCookieValues_cons_pos kv rest hk]
          have : (vs0 ++ [kv.2]) ++ setCookieValues rest
              = vs0 ++ kv.2 :: setCookieValues rest := by simp
          rw [this]
        · intro name hlow
          rw [h3 name hlow]
          have hne : name ≠ "set-cookie" := fun hh => hlow (by rw [hh]; exact setCookie_toLower)
          have hkv : kv.1 ≠ name := fun hh => hlow (hh ▸ hk)
          cases hrest : lastExact rest name with
          | some w => simp [lastExact, hrest]
          | none =>
              simp only [lastExact, hrest]
              rw [if_neg hkv]
              exact recLookup_recSet_ne acc "set-cookie" _ name hne
      · rw [if_neg hk]
        have hkvsc : kv.1 ≠ "set-cookie" := fun hh => hk (by rw [hh]; exact setCookie_toLower)
        have hacc' : recLookup (recSet acc kv.1 (.hstr kv.2)) "set-cookie" = cookieOpt vs0 := by
          rw [recLookup_recSet_ne acc kv.1 _ "set-cookie" (fun hh => hkvsc hh.symm)]
          exact hacc
        obtain ⟨h1, h3⟩ := ih (recSet acc kv.1 (.hstr kv.2)) vs0 hacc'
        refine ⟨?_, ?_⟩
        · rw [h1, setCookieValues_cons_neg kv rest hk]
        · intro name hlow
          rw [h3 name hlow]
          cases hrest : lastExact rest name with
          | some w => simp [lastExact, hrest]
          | none =>
              simp only [lastExact, hrest]
              by_cases hkn : kv.1 = name
              · rw [if_pos hkn]
                subst hkn
                rw [recLookup_recSet_self]
              · rw [if_neg hkn]
                exact recLookup_recSet_ne acc kv.1 _ name (fun hh => hkn hh.symm)

theorem grouped_fold_filter
    (step : List (String × HVal) → (String × String) → List (String × HVal))
    (hstep : ∀ acc kv vs, recLookup acc "set-cookie" = cookieOpt vs →
      step acc kv = if jsToLower kv.1 = "set-cookie"
        then recSet acc "set-cookie" (.harr (vs ++ [kv.2]))
        else recSet acc kv.1 (.hstr kv.2))
    (es : List (String × String)) :
    ∀ (acc : List (String × HVal)) (vs0 : List String),
      recLookup acc "set-cookie" = cookieOpt vs0 →
      acc.filter isSetCookieName = cookieFilterEntry vs0 →
      (es.foldl step acc).filter isSetCookieName
        = cookieFilterEntry (vs0 ++ setCookieValues es) := by
  induction es with
  | nil =>
      intro acc vs0 _ hfil
      simpa [setCookieValues] using hfil
  | cons kv rest ih =>
      intro acc vs0 hacc hfil
      rw [List.foldl_cons, hstep acc kv vs0 hacc]
      by_cases hk : jsToLower kv.1 = "set-cookie"
      · rw [if_pos hk]
        have hacc' : recLookup (recSet acc "set-cookie" (.harr (vs0 ++ [kv.2])))
            "set-cookie" = cookieOpt (vs0 ++ [kv.2]) := by
          rw [recLookup_recSet_self]
          cases vs0 <;> rfl
        have hfil' : (recSet acc "set-cookie" (.harr (vs0 ++ [kv.2]))).filter isSetCookieName
            = cookieFilterEntry (vs0 ++ [kv.2]) := by
          cases vs0 with
          | nil =>
              have hempty : acc.filter isSetCookieName = [] := by
                simpa [cookieFilterEntry] using hfil
              simpa [cookieFilterEntry] using
                filter_recSet_cookie_none acc (.harr ([] ++ [kv.2])) hempty
          | cons a l =>
              have hone : acc.filter isSetCookieName = [("set-cookie", HVal.harr (a :: l))] := by
                simpa [cookieFilterEntry] using hfil
              simpa [cookieFilterEntry] using
                filter_recSet_cookie_some acc (.harr (a :: l ++ [kv.2])) (.harr (a :: l)) hone
        rw [ih _ _ hacc' hfil', setCookieValues_cons_pos kv rest hk]
        have : (vs0 ++ [kv.2]) ++ setCookieValues rest
            = vs0 ++ kv.2 :: setCookieValues rest := by simp
        rw [this]
      · rw [if_neg hk]
        have hkvsc : kv.1 ≠ "set-cookie" := fun hh => hk (by rw [hh]; exact setCookie_toLower)
        have hacc' : recLookup (recSet acc kv.1 (.hstr kv.2)) "set-cookie" = cookieOpt vs0 := by
          rw [recLookup_recSet_ne acc kv.1 _ "set-cookie" (fun hh => hkvsc hh.symm)]
          exact hacc
        have hfil' : (recSet acc kv.1 (.hstr kv.2)).filter isSetCookieName
            = cookieFilterEntry vs0 := by
          rw [filter_recSet_other acc kv.1 _ hk]
          exact hfil
        rw [ih _ _ hacc' hfil', setCookieValues_cons_neg kv rest hk]

theorem groupStepBuffering_spec (acc : List (String × HVal)) (kv : String × String)
    (vs : List String) (h : recLookup acc "set-cookie" = cookieOpt vs) :
    groupStepBuffering acc kv = if jsToLower kv.1 = "set-cookie"
      then recSet acc "set-cookie" (.harr (vs ++ [kv.2]))
      else recSet acc kv.1 (.hstr kv.2) := by
  simp only [groupStepBuffering]
  by_cases hk : jsToLower kv.1 = "set-cookie"
  · rw [hk]
    rw [h]
    simp only [if_pos rfl]
    cases vs <;> rfl
  · rw [if_neg hk, if_neg hk]

theorem groupStepStreaming_spec (acc : List (String × HVal)) (kv : String × String)
    (vs : List String) (h : recLookup acc "set-cookie" = cookieOpt vs) :
    groupStepStreaming acc kv = if jsToLower kv.1 = "set-cookie"
      then recSet acc "set-cookie" (.harr (vs ++ [kv.2]))
      else recSet acc kv.1 (.hstr kv.2) := by
  simp only [groupStepStreaming]
  by_cases hk : jsToLower kv.1 = "set-cookie"
  · rw [hk]
    rw [h]
    simp only [if_pos rfl]
    cases vs <;> rfl
  · rw [if_neg hk, if_neg hk]

/-- Claim C4 — In both `toHttpResponse` variants, grouping a canonical
response's header entries accumulates all occurrences named `set-cookie`
case-insensitively into a single array entry under the key `set-cookie`,
preserving original order (so the name receives exactly one `setHeader`
call, with the array value), while every other header name holds a
single last-value-wins scalar. -/
theorem toHttpResponse_set_cookie_grouping (entries : List (String × String)) :
    (recLookup (groupHeadersBuffering entries) "set-cookie"
        = cookieOpt (setCookieValues entries)
      ∧ (groupHeadersBuffering entries).filter isSetCookieName
          = cookieFilterEntry (setCookieValues entries)
      ∧ ∀ name, ¬(jsToLower name = "set-cookie") →
          recLookup (groupHeadersBuffering entries) name
            = (lastExact entries name).map HVal.hstr)
    ∧ (recLookup (groupHeadersStreaming entries) "set-cookie"
        = cookieOpt (setCookieValues entries)
      ∧ (groupHeadersStreaming entries).filter isSetCookieName
          = cookieFilterEntry (setCookieValues entries)
      ∧ ∀ name, ¬(jsToLower name = "set-cookie") →
          recLookup (groupHeadersStreaming entries) name
            = (lastExact entries name).map HVal.hstr) := by
  have hb := grouped_fold_lookup groupStepBuffering groupStepBuffering_spec entries [] [] rfl
  have hbf := grouped_fold_filter groupStepBuffering groupStepBuffering_spec entries [] [] rfl rfl
  have hs := grouped_fold_lookup groupStepStreaming groupStepStreaming_spec entries [] [] rfl
  have hsf := grouped_fold_filter groupStepStreaming groupStepStreaming_spec entries [] [] rfl rfl
  refine ⟨⟨?_, ?_, ?_⟩, ⟨?_, ?_, ?_⟩⟩
  · simpa using hb.1
  · simpa using hbf
  · intro name hname
    simp only [groupHeadersBuffering]
    rw [hb.2 name hname]
    cases lastExact entries name <;> rfl
  · simpa using hs.1
  · simpa using hsf
  · intro name hname
    simp only [groupHeadersStreaming]
    rw [hs.2 name hname]
    cases lastExact entries name <;> rfl

/-- Witness for C4: an engine response with two separate `Set-Cookie`
occurrences (in differing cases) and a repeated scalar header groups
into one ordered set-cookie array and a last-value-wins scalar, in both
variants. -/
theorem toHttpResponse_set_cookie_grouping_witness :
    recLookup (groupHeadersBuffering
        [("Content-Type", "text/html"), ("Set-Cookie", "a=1; Path=/"),
         ("X-Test", "one"), ("X-Test", "two"), ("set-cookie", "b=2")])
        "set-cookie" = some (.harr ["a=1; Path=/", "b=2"])
    ∧ (groupHeadersBuffering
        [("Content-Type", "text/html"), ("Set-Cookie", "a=1; Path=/"),
         ("X-Test", "one"), ("X-Test", "two"), ("set-cookie", "b=2")]).filter
        isSetCookieName = [("set-cookie", HVal.harr ["a=1; Path=/", "b=2"])]
    ∧ recLookup (groupHeadersBuffering
        [("Content-Type", "text/html"), ("Set-Cookie", "a=1; Path=/"),
         ("X-Test", "one"), ("X-Test", "two"), ("set-cookie", "b=2")])
        "X-Test" = some (.hstr "two")
    ∧ recLookup (groupHeadersStreaming
        [("Content-Type", "text/html"), ("Set-Cookie", "a=1; Path=/"),
         ("X-Test", "one"), ("X-Test", "two"), ("set-cookie", "b=2")])
        "set-cookie" = some (.harr ["a=1; Path=/", "b=2"]) := by
  have h := toHttpResponse_set_cookie_grouping
    [("Content-Type", "text/html"), ("Set-Cookie", "a=1; Path=/"),
     ("X-Test", "one"), ("X-Test", "two"), ("set-cookie", "b=2")]
  exact ⟨h.1.1.trans (by decide), h.1.2.1.trans (by decide),
    (h.1.2.2 "X-Test" (by decide)).trans (by decide), h.2.1.trans (by decide)⟩

theorem toWebHeaders_arr_fold (k : String) (vs : List String)
    (acc : List (String × String)) :
    vs.foldl (fun a v => if v = "" then a else a ++ [(k, v)]) acc
      = acc ++ (vs.filter (fun s => s ≠ "")).map (fun s => (k, s)) := by
  induction vs generalizing acc with
  | nil => simp
  | cons v rest ih =>
      by_cases hv : v = ""
      · simpa [hv] using ih acc
      · simpa [hv, List.append_assoc] using ih (acc ++ [(k, v)])

theorem toWebHeaders_go (raw : List (String × RawHeaderVal))
    (acc : List (String × String)) :
    raw.foldl toWebHeadersStep acc
      = acc ++ raw.flatMap (fun kv => headerEntryContrib kv.1 kv.2) := by
  induction raw generalizing acc with
  | nil => simp
  | cons kv rest ih =>
      cases kv with
      | mk k v =>
          rw [List.foldl_cons, ih (toWebHeadersStep acc (k, v))]
          cases v with
          | arr vs =>
              simp only [toWebHeadersStep]
              rw [toWebHeaders_arr_fold]
              simp [headerEntryContrib, List.append_assoc]
          | scalar s =>
              by_cases hs : s = ""
              · simp [toWebHeadersStep, hs, headerEntryContrib]
              · simp [toWebHeadersStep, hs, headerEntryContrib, List.append_assoc]
          | undefV => simp [toWebHeadersStep, headerEntryContrib]

/-- Claim C5 — The header loop of `toWebRequest` realizes exactly the
per-entry contributions the specification describes: each array value
contributes its non-empty elements in order under its name, each truthy
scalar contributes itself once, and falsy or absent values contribute no
header at all; reading a multi-appended name back yields the non-empty
elements joined, and an entirely-falsy name is absent. -/
theorem toWebRequest_header_filtering (raw : List (String × RawHeaderVal)) :
    toWebHeaders raw = raw.flatMap (fun kv => headerEntryContrib kv.1 kv.2)
    ∧ getHeader (toWebHeaders
        [("x-array", .arr ["first", "", "second"]), ("x-single", .undefV)]) "x-array"
        = some "first, second"
    ∧ getHeader (toWebHeaders
        [("x-array", .arr ["first", "", "second"]), ("x-single", .undefV)]) "x-single"
        = none := by
  refine ⟨?_, by decide, by decide⟩
  simpa [toWebHeaders] using toWebHeaders_go raw []

/-- Claim C6 (amended) — The streaming `toWebRequest` variant skips the
body for any method equal to GET or HEAD case-insensitively; the
buffering variant guarantees this only when the raw method string
already contains the uppercase literal GET or HEAD. -/
theorem toWebRequest_get_head_no_body :
    (∀ r : NativeRequest, jsToUpper r.method = "GET" ∨ jsToUpper r.method = "HEAD" →
      (toWebRequestStreaming r).body = .noBody)
    ∧ (∀ r : NativeRequest,
        strContains r.method "GET" = true ∨ strContains r.method "HEAD" = true →
      (toWebRequestBuffering r).body = .noBody) := by
  constructor
  · intro r hm
    have ht : testGetHead (jsToUpper r.method) = true := by
      rcases hm with h | h <;> rw [h] <;> decide
    simp [toWebRequestStreaming, toWebRequestBodyStreaming, ht]
  · intro r hm
    have ht : testGetHead r.method = true := by
      rcases hm with h | h <;> simp [testGetHead, h]
    simp [toWebRequestBuffering, toWebRequestBodyBuffering, ht]

/-- Witness for the amended C6: the streaming variant drops the body for
a lowercase `get` even though the native body accessor returns a string,
and the buffering variant drops it for an uppercase `GET`. -/
theorem toWebRequest_get_head_no_body_witness :
    (toWebRequestStreaming
      { protocol := "http", host := "localhost", url := "/auth/csrf",
        method := "get", headers := [], body := .strB "csrfToken=abc" }).body
      = .noBody
    ∧ (toWebRequestBuffering
      { protocol := "http", host := "localhost", url := "/auth/csrf",
        method := "GET", headers := [], body := .strB "csrfToken=abc" }).body
      = .noBody := by
  constructor
  · exact toWebRequest_get_head_no_body.1
      { protocol := "http", host := "localhost", url := "/auth/csrf",
        method := "get", headers := [], body := .strB "csrfToken=abc" }
      (Or.inl (by decide))
  · exact toWebRequest_get_head_no_body.2
      { protocol := "http", host := "localhost", url := "/auth/csrf",
        method := "GET", headers := [], body := .strB "csrfToken=abc" }
      (Or.inl (by decide))

/-- Counterexample for C6 as stated: the buffering `toWebRequest`
variant tests `/GET|HEAD/` against the method string without
uppercasing, so a lowercase `get` with a non-null native body produces a
canonical body instead of skipping it. -/
theorem toWebRequest_get_head_no_body_counterexample :
    jsToUpper "get" = "GET"
    ∧ (toWebRequestBuffering
      { protocol := "http", host := "localhost", url := "/auth/csrf",
        method := "get", headers := [], body := .strB "csrfToken=abc" }).body
      = .textBody "csrfToken=abc"
    ∧ (toWebRequestBuffering
      { protocol := "http", host := "localhost", url := "/auth/csrf",
        method := "get", headers := [], body := .strB "csrfToken=abc" }).body
      ≠ .noBody := by
  refine ⟨by decide, by decide, by decide⟩

/-- Claim C7 — For a non-GET/HEAD request with a form content-type and a
record body, both `toWebRequest` variants re-serialize the record with
`qs.stringify(..., {arrayFormat: 'repeat'})`: array values repeat the
key (`a=[1,2]` encodes as `a=1&a=2`) and a flat record encodes as plain
`key=value` pairs (`{alpha, beta}` as `alpha=one&beta=two`). -/
theorem toWebRequest_form_urlencoded_repeat
    (r : NativeRequest) (o : List (String × QsVal))
    (hbody : r.body = .objB o)
    (hmeth1 : testGetHead r.method = false)
    (hmeth2 : testGetHead (jsToUpper r.method) = false)
    (hct : ((getHeader (toWebHeaders r.headers) "content-type").map
        (fun ct => strContains ct "application/x-www-form-urlencoded")).getD false
        = true) :
    (toWebRequestBuffering r).body = .textBody (qsStringifyRepeat o)
    ∧ (toWebRequestStreaming r).body = .textBody (qsStringifyRepeat o)
    ∧ qsStringifyRepeat [("a", .qarr [.qnum 1, .qnum 2])] = "a=1&a=2"
    ∧ qsStringifyRepeat [("alpha", .prim (.qstr "one")), ("beta", .prim (.qstr "two"))]
        = "alpha=one&beta=two" := by
  refine ⟨?_, ?_, by decide, by decide⟩
  · simp [toWebRequestBuffering, toWebRequestBodyBuffering, hmeth1, hbody, hct,
      qsStringifyBody]
  · simp [toWebRequestStreaming, toWebRequestBodyStreaming, hmeth2, hbody, hct,
      qsStringifyBody]

/-- Witness for C7: a POST with the form content-type and the record
`{alpha: "one", beta: "two"}` yields exactly `alpha=one&beta=two` in
both variants. -/
theorem toWebRequest_form_urlencoded_repeat_witness :
    (toWebRequestBuffering
      { protocol := "http", host := "localhost", url := "/auth/callback/credentials",
        method := "POST",
        headers := [("content-type", .scalar "application/x-www-form-urlencoded")],
        body := .objB [("alpha", .prim (.qstr "one")), ("beta", .prim (.qstr "two"))] }).body
      = .textBody "alpha=one&beta=two"
    ∧ (toWebRequestStreaming
      { protocol := "http", host := "localhost", url := "/auth/callback/credentials",
        method := "POST",
        headers := [("content-type", .scalar "application/x-www-form-urlencoded")],
        body := .objB [("alpha", .prim (.qstr "one")), ("beta", .prim (.qstr "two"))] }).body
      = .textBody "alpha=one&beta=two" := by
  have h := toWebRequest_form_urlencoded_repeat
    { protocol := "http", host := "localhost", url := "/auth/callback/credentials",
      method := "POST",
      headers := [("content-type", .scalar "application/x-www-form-urlencoded")],
      body := .objB [("alpha", .prim (.qstr "one")), ("beta", .prim (.qstr "two"))] }
    [("alpha", .prim (.qstr "one")), ("beta", .prim (.qstr "two"))]
    rfl (by decide) (by decide) (by decide)
  exact ⟨h.1.trans (congrArg BodyInit.textBody h.2.2.2),
    h.2.1.trans (congrArg BodyInit.textBody h.2.2.2)⟩
